import Mathlib

/-!
Shallow embedding of the price-comparison backend's pricing core: the
`Product` cached statistics, `RetailerProductPrice` observations with
save-time previous-price tracking, `PriceHistory` rows with the retention
sweep `clean_old_price_data`, and the `ScraperRun` tracker.

Decimal prices are embedded as exact rationals: every price with two decimal
places is exact in `ℚ`, and Python `Decimal` arithmetic at the default
context precision of 28 significant digits agrees with exact rational
arithmetic on every quantity these theorems compare (the divergences at the
28th significant digit are far below the 2-decimal granularity at issue).
Time is an abstract integer measured in days.
-/

namespace PriceCompare

/-- ASCII model of `django.utils.text.slugify` with `allow_unicode = False`:
lower-case the string, keep word characters, whitespace and hyphens, collapse
every run of whitespace and hyphens to a single hyphen, and strip leading and
trailing hyphens and underscores. -/
def slugify (s : String) : String :=
  let keep : Char → Bool := fun c =>
    c.toNat < 128 && (c.isAlphanum || c = '_' || c.isWhitespace || c = '-')
  let sep : Char → Bool := fun c => c.isWhitespace || c = '-'
  let step : Char → List Char → List Char := fun c acc =>
    if sep c then
      match acc with
      | '-' :: _ => acc
      | _ => '-' :: acc
    else c :: acc
  let cs := ((s.toList.map Char.toLower).filter keep).foldr step []
  let edge : Char → Bool := fun c => c = '-' || c = '_'
  String.mk (((cs.dropWhile edge).reverse.dropWhile edge).reverse)

/-- Embedding of the `Product` model: identity fields plus the cached price
statistics (`lowest_price`, `highest_price`, `average_price`, each nullable)
and the auto-maintained `updated_at` timestamp. -/
structure Product where
  pk : Nat
  name : String
  slug : String
  lowest_price : Option ℚ
  highest_price : Option ℚ
  average_price : Option ℚ
  view_count : Nat
  created_at : Int
  updated_at : Int
deriving DecidableEq

/-- Embedding of `Product.save`: generate the slug from the name when the slug
is empty, then write the row (the `auto_now` field `updated_at` refreshes). -/
def Product.save (now : Int) (p : Product) : Product :=
  let p := if p.slug = "" then { p with slug := slugify p.name } else p
  { p with updated_at := now }

/-- Embedding of the `RetailerProductPrice` model, one row per observation.
`pk` is `none` on an instance not yet inserted. Both source references are
nullable and nothing in the model restricts their combination (the source
only carries a comment stating the intended exclusive-or). -/
structure RetailerProductPrice where
  pk : Option Nat
  product : Nat
  retailer : Option Nat
  small_retailer : Option Nat
  price : ℚ
  currency : String
  shipping_cost : ℚ
  is_free_shipping : Bool
  product_url : String
  is_available : Bool
  stock_status : String
  previous_price : Option ℚ
  price_updated_at : Int
  last_checked : Int
deriving DecidableEq

/-- Embedding of the `PriceHistory` model: immutable rows written only by a
retention sweep's deletion; nothing in the source ever inserts one. -/
structure PriceHistory where
  pk : Nat
  product : Nat
  retailer : Option Nat
  small_retailer : Option Nat
  price : ℚ
  currency : String
  timestamp : Int
deriving DecidableEq

/-- The relational state the claims range over: product rows, observation
rows and price-history rows. -/
structure DB where
  products : List Product
  prices : List RetailerProductPrice
  history : List PriceHistory
deriving DecidableEq

/-- The query `retailer_prices.filter(is_available=True).values_list('price', flat=True)`
over a raw observation-row list: prices of the product's currently-available
observations. -/
def priceList (rows : List RetailerProductPrice) (pid : Nat) : List ℚ :=
  (rows.filter (fun r => r.product == pid && r.is_available)).map (fun r => r.price)

/-- The same query at the state level. -/
def availablePrices (db : DB) (pid : Nat) : List ℚ :=
  priceList db.prices pid

/-- Python `sum` over a list of decimals, started from `0`. -/
def listSum (l : List ℚ) : ℚ := l.foldl (· + ·) 0

/-- Embedding of `Product.update_price_stats`: collect the prices of the
product's currently-available observations; when the list is nonempty set
`lowest_price` to their `min`, `highest_price` to their `max` and
`average_price` to `sum / len`, and save the product row; when the list is
empty do nothing, leaving the cached fields exactly as they were. -/
def update_price_stats (now : Int) (db : DB) (pid : Nat) : DB :=
  match availablePrices db pid with
  | [] => db
  | x :: xs =>
      { db with
        products := db.products.map (fun p =>
          if p.pk = pid then
            Product.save now
              { p with
                lowest_price := some (xs.foldl min x)
                highest_price := some (xs.foldl max x)
                average_price := some (listSum (x :: xs) / ((x :: xs).length : ℚ)) }
          else p) }

/-- A fresh primary key for an inserted observation row. -/
def freshPk (db : DB) : Nat :=
  (db.prices.map (fun r => r.pk.getD 0)).foldl max 0 + 1

/-- Embedding of `RetailerProductPrice.save`: when the instance has a primary
key, fetch the stored row (`DoesNotExist` is `none`), set `previous_price` to
the old price exactly when the price changed, and overwrite the row; when it
has no key, insert it with a fresh one. The `auto_now` timestamp fields are
refreshed either way, and afterwards the owning product's statistics are
recomputed with `update_price_stats`. No history row is written anywhere on
this path. -/
def RetailerProductPrice.save (now : Int) (db : DB) (inst : RetailerProductPrice) :
    Option DB :=
  match inst.pk with
  | some k =>
      match db.prices.find? (fun r => r.pk == some k) with
      | none => none
      | some old =>
          let inst := if old.price ≠ inst.price
            then { inst with previous_price := some old.price } else inst
          let inst := { inst with price_updated_at := now, last_checked := now }
          let db1 : DB :=
            { db with prices := db.prices.map (fun r => if r.pk = some k then inst else r) }
          some (update_price_stats now db1 inst.product)
  | none =>
      let inst := { inst with pk := some (freshPk db), price_updated_at := now, last_checked := now }
      some (update_price_stats now { db with prices := db.prices ++ [inst] } inst.product)

/-- The ingestion payload of one observation. -/
structure IngestFields where
  price : ℚ
  currency : String
  shipping_cost : ℚ
  is_free_shipping : Bool
  product_url : String
  is_available : Bool
  stock_status : String
deriving DecidableEq

/-- Ingestion driver for one observation, following the upsert contract over
the model's persistence method: update the stored row for the
(product, source) pair in place when one exists, otherwise create a fresh
instance; both paths go through `RetailerProductPrice.save`. -/
def upsert (now : Int) (db : DB) (pid : Nat) (ret small : Option Nat)
    (f : IngestFields) : Option DB :=
  match db.prices.find?
      (fun r => r.product == pid && r.retailer == ret && r.small_retailer == small) with
  | some old =>
      RetailerProductPrice.save now db
        { old with
          price := f.price
          currency := f.currency
          shipping_cost := f.shipping_cost
          is_free_shipping := f.is_free_shipping
          product_url := f.product_url
          is_available := f.is_available
          stock_status := f.stock_status }
  | none =>
      RetailerProductPrice.save now db
        { pk := none
          product := pid
          retailer := ret
          small_retailer := small
          price := f.price
          currency := f.currency
          shipping_cost := f.shipping_cost
          is_free_shipping := f.is_free_shipping
          product_url := f.product_url
          is_available := f.is_available
          stock_status := f.stock_status
          previous_price := none
          price_updated_at := 0
          last_checked := 0 }

/-- Embedding of `clean_old_price_data`: delete every `PriceHistory` row whose
timestamp is strictly older than 365 days before `now`. -/
def clean_old_price_data (now : Int) (db : DB) : DB :=
  { db with history := db.history.filter (fun h => !decide (h.timestamp < now - 365)) }

/-- Embedding of the `ScraperRun` model row. -/
structure ScraperRun where
  pk : Nat
  scraper_config : Nat
  start_time : Int
  end_time : Option Int
  status : String
  products_scraped : Nat
  new_prices_found : Nat
  updated_prices : Nat
  errors : String
deriving DecidableEq

/-- Creation of a `ScraperRun` row with the model's declared defaults:
`start_time` is `auto_now_add`, `end_time` is null, `status` defaults to the
string "failed" and every counter to zero. -/
def newScraperRun (pk cfg : Nat) (now : Int) : ScraperRun :=
  { pk := pk
    scraper_config := cfg
    start_time := now
    end_time := none
    status := "failed"
    products_scraped := 0
    new_prices_found := 0
    updated_prices := 0
    errors := "" }

/-- Modelled from the spec: finalization of a `ScraperRun` ("finalize
status/end_time exactly once when the attempt concludes (success, partial, or
failed) ... Never mutate a finalized run"). The scraper task in the source
stops after its configuration lookup and contains no finalization code, so
this step is written from the specification's words: a run counts as
finalized once its `end_time` is set, finalization records one of the three
declared statuses together with the end time, and finalizing an
already-finalized run is refused. -/
def finalizeRun (r : ScraperRun) (st : String) (now : Int) : Option ScraperRun :=
  if r.end_time.isSome then none
  else if st = "success" ∨ st = "partial" ∨ st = "failed" then
    some { r with status := st, end_time := some now }
  else none

/-- The statistics a reconciliation pass would write for a product: `none`
exactly when the product has no currently-available observation. -/
def computedStats (db : DB) (pid : Nat) : Option (ℚ × ℚ × ℚ) :=
  match availablePrices db pid with
  | [] => none
  | x :: xs =>
      some (xs.foldl min x, xs.foldl max x, listSum (x :: xs) / ((x :: xs).length : ℚ))

/-- A product's cached statistics agree with what a reconciliation pass over
its currently-available observations would write (vacuously true when it has
none, since the pass then leaves the cache untouched). -/
def reconciled (db : DB) (pid : Nat) : Bool :=
  match computedStats db pid with
  | none => true
  | some (lo, hi, av) =>
      db.products.all (fun p =>
        (p.pk != pid) ||
          ((p.lowest_price == some lo) && (p.highest_price == some hi) &&
            (p.average_price == some av)))

/-- Rounding half-up to two decimal places — the specification's stated
rounding policy for the cached average, written from the spec's words to be
compared with the exact quotient the code stores. -/
def roundHalfUp2 (q : ℚ) : ℚ := ((Int.floor (q * 100 + 1 / 2) : ℤ) : ℚ) / 100

/-! Shared sample data for witnesses and counterexamples. -/

/-- A sample product row with empty cached statistics. -/
def wProduct : Product :=
  { pk := 1
    name := "Widget"
    slug := "widget"
    lowest_price := none
    highest_price := none
    average_price := none
    view_count := 0
    created_at := 0
    updated_at := 0 }

/-- A sample observation row builder. -/
def mkRow (k pid rid : Nat) (pr : ℚ) (cur : String) (avail : Bool) :
    RetailerProductPrice :=
  { pk := some k
    product := pid
    retailer := some rid
    small_retailer := none
    price := pr
    currency := cur
    shipping_cost := 0
    is_free_shipping := false
    product_url := ""
    is_available := avail
    stock_status := ""
    previous_price := none
    price_updated_at := 0
    last_checked := 0 }

/-- A sample ingestion payload builder with default ancillary fields. -/
def mkFields (pr : ℚ) (cur : String) : IngestFields :=
  { price := pr
    currency := cur
    shipping_cost := 0
    is_free_shipping := false
    product_url := ""
    is_available := true
    stock_status := "" }

/-- A state holding one product and no observations. -/
def noObsDB : DB := { products := [wProduct], prices := [], history := [] }

/-- A state holding one product and one stored observation at price 10. -/
def oneRowDB : DB :=
  { products := [wProduct], prices := [mkRow 1 1 1 10 "USD" true], history := [] }

/-- A state with two available observations at prices 0.02 and 0.03. -/
def twoRowDB : DB :=
  { products := [wProduct]
    prices := [mkRow 1 1 1 (2/100) "USD" true, mkRow 2 1 2 (3/100) "USD" true]
    history := [] }

/-- The product row as it stands after a reconciliation pass over `twoRowDB`
at time 7 (the statistics fields hold the pass's defining expressions over
the available prices 0.02 and 0.03). -/
def twoRowDBPost : Product :=
  { pk := 1
    name := "Widget"
    slug := "widget"
    lowest_price := some ([(3 : ℚ)/100].foldl min (2/100))
    highest_price := some ([(3 : ℚ)/100].foldl max (2/100))
    average_price :=
      some (listSum ((2 : ℚ)/100 :: [3/100]) / (((2 : ℚ)/100 :: [3/100]).length : ℚ))
    view_count := 0
    created_at := 0
    updated_at := 7 }

/-! General list lemmas used by the reconciliation theorems. -/

theorem listSum_eq_sum (l : List ℚ) : listSum l = l.sum := by
  have h : ∀ (l : List ℚ) (a : ℚ), l.foldl (· + ·) a = a + l.sum := by
    intro l
    induction l with
    | nil => intro a; simp
    | cons x xs ih => intro a; rw [List.foldl_cons, ih, List.sum_cons]; ring
  simpa [listSum] using h l 0

theorem foldl_min_le_init (ys : List ℚ) (b : ℚ) : ys.foldl min b ≤ b := by
  induction ys generalizing b with
  | nil => exact le_refl b
  | cons y ys ih => exact le_trans (ih (min b y)) (min_le_left b y)

theorem le_foldl_max_init (ys : List ℚ) (b : ℚ) : b ≤ ys.foldl max b := by
  induction ys generalizing b with
  | nil => exact le_refl b
  | cons y ys ih => exact le_trans (le_max_left b y) (ih (max b y))

theorem foldl_min_le (xs : List ℚ) (x : ℚ) : ∀ a ∈ x :: xs, xs.foldl min x ≤ a := by
  induction xs generalizing x with
  | nil =>
      intro a ha
      rw [List.mem_singleton] at ha
      subst ha
      exact le_refl a
  | cons y ys ih =>
      intro a ha
      rw [List.foldl_cons]
      rcases List.mem_cons.mp ha with h1 | h1
      · subst h1
        exact le_trans (foldl_min_le_init ys (min a y)) (min_le_left a y)
      · rcases List.mem_cons.mp h1 with h2 | h2
        · subst h2
          exact le_trans (foldl_min_le_init ys (min x a)) (min_le_right x a)
        · exact ih (min x y) a (List.mem_cons_of_mem _ h2)

theorem le_foldl_max (xs : List ℚ) (x : ℚ) : ∀ a ∈ x :: xs, a ≤ xs.foldl max x := by
  induction xs generalizing x with
  | nil =>
      intro a ha
      rw [List.mem_singleton] at ha
      subst ha
      exact le_refl a
  | cons y ys ih =>
      intro a ha
      rw [List.foldl_cons]
      rcases List.mem_cons.mp ha with h1 | h1
      · subst h1
        exact le_trans (le_max_left a y) (le_foldl_max_init ys (max a y))
      · rcases List.mem_cons.mp h1 with h2 | h2
        · subst h2
          exact le_trans (le_max_right x a) (le_foldl_max_init ys (max x a))
        · exact ih (max x y) a (List.mem_cons_of_mem _ h2)

theorem foldl_min_mem (xs : List ℚ) (x : ℚ) : xs.foldl min x ∈ x :: xs := by
  induction xs generalizing x with
  | nil => exact List.mem_singleton.mpr rfl
  | cons y ys ih =>
      rw [List.foldl_cons]
      rcases List.mem_cons.mp (ih (min x y)) with h1 | h1
      · rcases min_choice x y with hc | hc
        · rw [h1, hc]; exact List.mem_cons_self _ _
        · rw [h1, hc]; exact List.mem_cons_of_mem _ (List.mem_cons_self _ _)
      · exact List.mem_cons_of_mem _ (List.mem_cons_of_mem _ h1)

theorem foldl_max_mem (xs : List ℚ) (x : ℚ) : xs.foldl max x ∈ x :: xs := by
  induction xs generalizing x with
  | nil => exact List.mem_singleton.mpr rfl
  | cons y ys ih =>
      rw [List.foldl_cons]
      rcases List.mem_cons.mp (ih (max x y)) with h1 | h1
      · rcases max_choice x y with hc | hc
        · rw [h1, hc]; exact List.mem_cons_self _ _
        · rw [h1, hc]; exact List.mem_cons_of_mem _ (List.mem_cons_self _ _)
      · exact List.mem_cons_of_mem _ (List.mem_cons_of_mem _ h1)

/-- The arithmetic mean of a nonempty list lies between the folded minimum
and the folded maximum. -/
theorem min_le_avg_le_max (x : ℚ) (xs : List ℚ) :
    xs.foldl min x ≤ listSum (x :: xs) / (((x :: xs).length : ℕ) : ℚ) ∧
    listSum (x :: xs) / (((x :: xs).length : ℕ) : ℚ) ≤ xs.foldl max x := by
  have hn : (0 : ℚ) < (((x :: xs).length : ℕ) : ℚ) := by
    exact_mod_cast Nat.succ_pos xs.length
  rw [listSum_eq_sum]
  constructor
  · rw [le_div_iff₀ hn]
    have hb := List.card_nsmul_le_sum (x :: xs) (xs.foldl min x) (foldl_min_le xs x)
    rw [nsmul_eq_mul] at hb
    calc xs.foldl min x * (((x :: xs).length : ℕ) : ℚ)
        = (((x :: xs).length : ℕ) : ℚ) * xs.foldl min x := by ring
      _ ≤ (x :: xs).sum := hb
  · rw [div_le_iff₀ hn]
    have hb := List.sum_le_card_nsmul (x :: xs) (xs.foldl max x) (le_foldl_max xs x)
    rw [nsmul_eq_mul] at hb
    calc (x :: xs).sum ≤ (((x :: xs).length : ℕ) : ℚ) * xs.foldl max x := hb
      _ = xs.foldl max x * (((x :: xs).length : ℕ) : ℚ) := by ring

/-! Helper lemmas about the reconciliation pass. -/

theorem update_price_stats_prices (now : Int) (db : DB) (pid : Nat) :
    (update_price_stats now db pid).prices = db.prices := by
  unfold update_price_stats
  split <;> rfl

theorem update_price_stats_history (now : Int) (db : DB) (pid : Nat) :
    (update_price_stats now db pid).history = db.history := by
  unfold update_price_stats
  split <;> rfl

theorem update_price_stats_of_nil (now : Int) (db : DB) (pid : Nat)
    (h : availablePrices db pid = []) : update_price_stats now db pid = db := by
  unfold update_price_stats
  rw [h]

theorem update_price_stats_of_cons (now : Int) (db : DB) (pid : Nat) (x : ℚ) (xs : List ℚ)
    (h : availablePrices db pid = x :: xs) :
    update_price_stats now db pid =
      { db with
        products := db.products.map (fun p =>
          if p.pk = pid then
            Product.save now
              { p with
                lowest_price := some (xs.foldl min x)
                highest_price := some (xs.foldl max x)
                average_price := some (listSum (x :: xs) / ((x :: xs).length : ℚ)) }
          else p) } := by
  unfold update_price_stats
  rw [h]

theorem product_save_fields (now : Int) (p : Product) :
    (Product.save now p).lowest_price = p.lowest_price ∧
    (Product.save now p).highest_price = p.highest_price ∧
    (Product.save now p).average_price = p.average_price ∧
    (Product.save now p).pk = p.pk ∧ (Product.save now p).name = p.name ∧
    (Product.save now p).view_count = p.view_count ∧
    (Product.save now p).created_at = p.created_at := by
  unfold Product.save
  by_cases h : p.slug = "" <;> simp [h]

/-! Claim theorems. -/

/-- C8: the retention sweep `clean_old_price_data` with its 365-day horizon
deletes exactly the price-history rows whose timestamp is strictly older than
365 days before now, leaves every other history row untouched and in place
(the result is a sublist of the original history), and running it a second
time at the same instant deletes nothing. -/
theorem clean_old_price_data_exact (db : DB) (now : Int) :
    (∀ h, h ∈ (clean_old_price_data now db).history ↔
      h ∈ db.history ∧ ¬ h.timestamp < now - 365) ∧
    (clean_old_price_data now db).history.Sublist db.history ∧
    clean_old_price_data now (clean_old_price_data now db) =
      clean_old_price_data now db := by
  refine ⟨?_, ?_, ?_⟩
  · intro h
    simp [clean_old_price_data, List.mem_filter]
  · exact List.filter_sublist _
  · unfold clean_old_price_data
    have hfix : ∀ (l : List PriceHistory),
        (l.filter (fun h => !decide (h.timestamp < now - 365))).filter
            (fun h => !decide (h.timestamp < now - 365)) =
          l.filter (fun h => !decide (h.timestamp < now - 365)) := by
      intro l
      exact List.filter_eq_self.mpr (fun a ha => (List.mem_filter.mp ha).2)
    simp [hfix]

/-- C9: a `ScraperRun` row is created at attempt start with status "failed"
and a null end time, so a crash mid-run can never leave it recorded as
successful; finalization (spec-modelled, since the scraper task body in the
source ends after its configuration lookup) succeeds exactly once, recording
one of the three declared statuses together with the end time, and a
finalized run is never mutated: a second finalization is refused. -/
theorem scraperRun_lifecycle :
    (∀ pk cfg now, (newScraperRun pk cfg now).status = "failed" ∧
      (newScraperRun pk cfg now).end_time = none) ∧
    (∀ r st now, r.end_time = none →
      (st = "success" ∨ st = "partial" ∨ st = "failed") →
      finalizeRun r st now = some { r with status := st, end_time := some now }) ∧
    (∀ r st now, r.end_time ≠ none → finalizeRun r st now = none) := by
  refine ⟨fun pk cfg now => ⟨rfl, rfl⟩, ?_, ?_⟩
  · intro r st now he hst
    unfold finalizeRun
    rw [he]
    simp [hst]
  · intro r st now he
    unfold finalizeRun
    rw [if_pos (Option.isSome_iff_ne_none.mpr he)]

theorem scraperRun_lifecycle_witness :
    finalizeRun (newScraperRun 1 1 0) "success" 7 =
      some { newScraperRun 1 1 0 with status := "success", end_time := some 7 } :=
  scraperRun_lifecycle.2.1 (newScraperRun 1 1 0) "success" 7 rfl (Or.inl rfl)

/-- Observation instance with neither source reference set. -/
def noSourceRow : RetailerProductPrice :=
  { pk := none
    product := 1
    retailer := none
    small_retailer := none
    price := 10
    currency := "USD"
    shipping_cost := 0
    is_free_shipping := false
    product_url := ""
    is_available := true
    stock_status := ""
    previous_price := none
    price_updated_at := 0
    last_checked := 0 }

/-- Observation instance with both source references set. -/
def dualSourceRow : RetailerProductPrice :=
  { noSourceRow with retailer := some 1, small_retailer := some 2 }

/-- C6: contrary to the claim (but matching the source's own comment that
exactly one source must be set), nothing enforces the exclusive-or: the save
path accepts and stores an observation row with neither source reference set,
and likewise one with both set. -/
theorem save_accepts_invalid_source_refs :
    ((RetailerProductPrice.save 0 noObsDB noSourceRow).map
      (fun d => d.prices.map (fun r => (r.retailer, r.small_retailer))) =
        some [(none, none)]) ∧
    ((RetailerProductPrice.save 0 noObsDB dualSourceRow).map
      (fun d => d.prices.map (fun r => (r.retailer, r.small_retailer))) =
        some [(some 1, some 2)]) := by
  constructor <;> rfl

/-- C2 (amended): after a reconciliation pass, when the product has at least
one currently-available observation every product row with its key carries
cached statistics satisfying lowest ≤ average ≤ highest; when it has none,
the pass leaves the entire state — in particular the three cached fields —
unchanged, rather than setting them to null. -/
theorem update_price_stats_order (now : Int) (db : DB) (pid : Nat) :
    (availablePrices db pid = [] → update_price_stats now db pid = db) ∧
    (∀ x xs, availablePrices db pid = x :: xs →
      ∀ p2 ∈ (update_price_stats now db pid).products, p2.pk = pid →
        ∃ lo hi av, p2.lowest_price = some lo ∧ p2.highest_price = some hi ∧
          p2.average_price = some av ∧ lo ≤ av ∧ av ≤ hi) := by
  constructor
  · exact update_price_stats_of_nil now db pid
  · intro x xs h p2 hp2 hpk
    rw [update_price_stats_of_cons now db pid x xs h] at hp2
    obtain ⟨p, hp, hfp⟩ := List.mem_map.mp hp2
    by_cases hif : p.pk = pid
    · rw [if_pos hif] at hfp
      obtain ⟨hlo, hhi, hav, -⟩ := product_save_fields now
        { p with
          lowest_price := some (xs.foldl min x)
          highest_price := some (xs.foldl max x)
          average_price := some (listSum (x :: xs) / ((x :: xs).length : ℚ)) }
      refine ⟨xs.foldl min x, xs.foldl max x,
        listSum (x :: xs) / ((x :: xs).length : ℚ), ?_, ?_, ?_, ?_, ?_⟩
      · rw [hfp] at hlo; exact hlo
      · rw [hfp] at hhi; exact hhi
      · rw [hfp] at hav; exact hav
      · exact (min_le_avg_le_max x xs).1
      · exact (min_le_avg_le_max x xs).2
    · rw [if_neg hif] at hfp
      rw [← hfp] at hpk
      exact absurd hpk hif

theorem update_price_stats_order_witness :
    (∃ lo hi av, twoRowDBPost.lowest_price = some lo ∧
      twoRowDBPost.highest_price = some hi ∧ twoRowDBPost.average_price = some av ∧
      lo ≤ av ∧ av ≤ hi) ∧
    update_price_stats 0 noObsDB 1 = noObsDB :=
  ⟨(update_price_stats_order 7 twoRowDB 1).2 (2/100) [3/100]
      (by simp [availablePrices, priceList, twoRowDB, mkRow])
      twoRowDBPost
      (by simp [update_price_stats, availablePrices, priceList, twoRowDB, mkRow,
            twoRowDBPost, Product.save, wProduct])
      rfl,
    (update_price_stats_order 0 noObsDB 1).1 rfl⟩

/-- A state whose product has stale non-null cached statistics and no
observations at all. -/
def staleStatsDB : DB :=
  { products := [{ wProduct with
      lowest_price := some 5, highest_price := some 5, average_price := some 5 }]
    prices := []
    history := [] }

/-- C2 counterexample: a product with cached statistics of 5 and zero
currently-available observations keeps the old non-null values after a
reconciliation pass; the cached fields are not set to null as the claim
requires. -/
theorem update_price_stats_empty_not_null :
    availablePrices staleStatsDB 1 = [] ∧
    (update_price_stats 0 staleStatsDB 1).products.map (fun p => p.average_price) =
      [some 5] ∧
    (update_price_stats 0 staleStatsDB 1).products.map (fun p => p.lowest_price) =
      [some 5] ∧
    some (5 : ℚ) ≠ none := by decide

/-- C3 (amended): for a product with at least one currently-available
observation a reconciliation pass caches exactly the minimum and the maximum
of the prices of the currently-available observations only (shipping costs
and unavailable observations excluded, as `availablePrices` collects bare
`price` fields of available rows), and caches as average the exact arithmetic
mean sum/length of those prices — with no rounding applied, in particular not
round-half-up to two decimal places. -/
theorem update_price_stats_values (now : Int) (db : DB) (pid : Nat) (x : ℚ)
    (xs : List ℚ) (h : availablePrices db pid = x :: xs) :
    ∀ p2 ∈ (update_price_stats now db pid).products, p2.pk = pid →
      (∃ m, p2.lowest_price = some m ∧ m ∈ x :: xs ∧ ∀ a ∈ x :: xs, m ≤ a) ∧
      (∃ M, p2.highest_price = some M ∧ M ∈ x :: xs ∧ ∀ a ∈ x :: xs, a ≤ M) ∧
      p2.average_price = some ((x :: xs).sum / ((x :: xs).length : ℚ)) := by
  intro p2 hp2 hpk
  rw [update_price_stats_of_cons now db pid x xs h] at hp2
  obtain ⟨p, hp, hfp⟩ := List.mem_map.mp hp2
  by_cases hif : p.pk = pid
  · rw [if_pos hif] at hfp
    obtain ⟨hlo, hhi, hav, -⟩ := product_save_fields now
      { p with
        lowest_price := some (xs.foldl min x)
        highest_price := some (xs.foldl max x)
        average_price := some (listSum (x :: xs) / ((x :: xs).length : ℚ)) }
    rw [hfp] at hlo hhi hav
    refine ⟨⟨xs.foldl min x, hlo, foldl_min_mem xs x, foldl_min_le xs x⟩,
      ⟨xs.foldl max x, hhi, foldl_max_mem xs x, le_foldl_max xs x⟩, ?_⟩
    rw [hav, listSum_eq_sum]
  · rw [if_neg hif] at hfp
    rw [← hfp] at hpk
    exact absurd hpk hif

theorem update_price_stats_values_witness :
    (∃ m, twoRowDBPost.lowest_price = some m ∧ m ∈ [(2 : ℚ)/100, 3/100] ∧
      ∀ a ∈ [(2 : ℚ)/100, 3/100], m ≤ a) ∧
    (∃ M, twoRowDBPost.highest_price = some M ∧ M ∈ [(2 : ℚ)/100, 3/100] ∧
      ∀ a ∈ [(2 : ℚ)/100, 3/100], a ≤ M) ∧
    twoRowDBPost.average_price =
      some (([(2 : ℚ)/100, 3/100].sum) / (([(2 : ℚ)/100, 3/100].length : ℚ))) :=
  update_price_stats_values 7 twoRowDB 1 (2/100) [3/100]
    (by simp [availablePrices, priceList, twoRowDB, mkRow])
    twoRowDBPost
    (by simp [update_price_stats, availablePrices, priceList, twoRowDB, mkRow,
        twoRowDBPost, Product.save, wProduct])
    rfl

/-- C3 counterexample: for available prices 0.02 and 0.03 the pass caches the
exact mean 0.025, whereas rounding half-up to two decimal places as the claim
states would give 0.03; the cached average is not the rounded value. -/
theorem average_not_roundHalfUp :
    (update_price_stats 7 twoRowDB 1).products.map (fun p => p.average_price) =
      [some (1/40)] ∧
    roundHalfUp2 (1/40) = 3/100 ∧ ((1 : ℚ)/40) ≠ 3/100 := by
  refine ⟨?_, ?_, by norm_num⟩
  · simp +decide [update_price_stats, availablePrices, priceList, twoRowDB, mkRow,
      Product.save, wProduct]
    norm_num [listSum]
  · norm_num [roundHalfUp2]

/-- C1 (amended): on saving an observation for an existing stored row,
`previous_price` becomes the old stored price exactly when the price changed
and keeps the instance's value otherwise; on a first observation the inserted
row keeps its null-by-default `previous_price`; and in every case the save
appends nothing to the price history — the history table is left exactly as
it was, since no code path writes `PriceHistory` rows. -/
theorem save_previous_price_no_history (now : Int) (db : DB)
    (inst : RetailerProductPrice) :
    (∀ k old, inst.pk = some k →
      db.prices.find? (fun r => r.pk == some k) = some old →
      ∃ db2, RetailerProductPrice.save now db inst = some db2 ∧
        db2.history = db.history ∧
        (∃ r ∈ db2.prices, r.pk = some k) ∧
        (∀ r ∈ db2.prices, r.pk = some k →
          r.previous_price =
            if old.price = inst.price then inst.previous_price else some old.price)) ∧
    (inst.pk = none →
      ∃ db2, RetailerProductPrice.save now db inst = some db2 ∧
        db2.history = db.history ∧
        ∃ r ∈ db2.prices, r.pk = some (freshPk db) ∧
          r.previous_price = inst.previous_price ∧ r.price = inst.price) := by
  constructor
  · intro k old hpk hfind
    have hmem : old ∈ db.prices := List.mem_of_find?_eq_some hfind
    have holdpk : old.pk = some k := by
      have := List.find?_some hfind
      exact beq_iff_eq.mp this
    unfold RetailerProductPrice.save
    by_cases hprice : old.price = inst.price
    · simp only [hpk, hfind, hprice, ne_eq, not_true_eq_false, if_false, ite_false,
        if_pos, Option.some.injEq]
      refine ⟨_, rfl, ?_, ?_, ?_⟩
      · rw [update_price_stats_history]
      · rw [update_price_stats_prices]
        refine ⟨_, List.mem_map_of_mem _ hmem, ?_⟩
        rw [if_pos holdpk]
      · intro r hr hrk
        rw [update_price_stats_prices] at hr
        obtain ⟨s, hs, hgs⟩ := List.mem_map.mp hr
        by_cases hsk : s.pk = some k
        · rw [if_pos hsk] at hgs
          rw [← hgs]
        · rw [if_neg hsk] at hgs
          rw [← hgs] at hrk
          exact absurd hrk hsk
    · simp only [hpk, hfind, hprice, ne_eq, not_false_eq_true, if_true, ite_true,
        if_neg, Option.some.injEq]
      refine ⟨_, rfl, ?_, ?_, ?_⟩
      · rw [update_price_stats_history]
      · rw [update_price_stats_prices]
        refine ⟨_, List.mem_map_of_mem _ hmem, ?_⟩
        rw [if_pos holdpk]
      · intro r hr hrk
        rw [update_price_stats_prices] at hr
        obtain ⟨s, hs, hgs⟩ := List.mem_map.mp hr
        by_cases hsk : s.pk = some k
        · rw [if_pos hsk] at hgs
          rw [← hgs]
        · rw [if_neg hsk] at hgs
          rw [← hgs] at hrk
          exact absurd hrk hsk
  · intro hpk
    unfold RetailerProductPrice.save
    rw [hpk]
    refine ⟨_, rfl, ?_, ?_⟩
    · rw [update_price_stats_history]
    · rw [update_price_stats_prices]
      exact ⟨_, List.mem_append_right _ (List.mem_singleton.mpr rfl), rfl, rfl, rfl⟩

theorem save_previous_price_no_history_witness :
    ∃ db2, RetailerProductPrice.save 5 oneRowDB (mkRow 1 1 1 8 "USD" true) =
        some db2 ∧
      db2.history = oneRowDB.history ∧
      (∃ r ∈ db2.prices, r.pk = some 1) ∧
      (∀ r ∈ db2.prices, r.pk = some 1 →
        r.previous_price =
          if (mkRow 1 1 1 10 "USD" true).price = (mkRow 1 1 1 8 "USD" true).price
          then (mkRow 1 1 1 8 "USD" true).previous_price
          else some (mkRow 1 1 1 10 "USD" true).price) :=
  (save_previous_price_no_history 5 oneRowDB (mkRow 1 1 1 8 "USD" true)).1
    1 (mkRow 1 1 1 10 "USD" true) rfl rfl

/-- C1 counterexample: a saved price change from 10 to 8 for the stored
(product, source) row updates `previous_price` but appends no history entry
at all — the history stays empty where the claim requires exactly one new
`PriceHistory` row. -/
theorem price_change_appends_no_history :
    ((10 : ℚ) ≠ 8) ∧
    (upsert 5 oneRowDB 1 (some 1) none (mkFields 8 "USD")).map
      (fun d => d.history.length) = some 0 ∧
    (upsert 5 oneRowDB 1 (some 1) none (mkFields 8 "USD")).map
      (fun d => d.prices.map (fun r => r.previous_price)) = some [some 10] := by
  refine ⟨by norm_num, rfl, rfl⟩

/-- C4 (amended): reconciliation ignores currencies entirely: even when the
product's currently-available observations span several distinct currencies,
the recomputation is not skipped — the cached average is overwritten with the
plain numeric mean across the mismatched currencies, and nothing beyond the
product rows changes (no flag or log entry exists in the state to record the
mismatch). -/
theorem update_price_stats_ignores_currency (now : Int) (db : DB) (pid : Nat)
    (x : ℚ) (xs : List ℚ) (h : availablePrices db pid = x :: xs)
    (r s : RetailerProductPrice) (hr : r ∈ db.prices) (hs : s ∈ db.prices)
    (hrp : r.product = pid) (hsp : s.product = pid)
    (hra : r.is_available = true) (hsa : s.is_available = true)
    (hcur : r.currency ≠ s.currency) :
    (∀ p2 ∈ (update_price_stats now db pid).products, p2.pk = pid →
      p2.average_price = some (listSum (x :: xs) / ((x :: xs).length : ℚ))) ∧
    (update_price_stats now db pid).history = db.history ∧
    (update_price_stats now db pid).prices = db.prices := by
  refine ⟨?_, update_price_stats_history now db pid, update_price_stats_prices now db pid⟩
  intro p2 hp2 hpk
  rw [update_price_stats_of_cons now db pid x xs h] at hp2
  obtain ⟨p, hp, hfp⟩ := List.mem_map.mp hp2
  by_cases hif : p.pk = pid
  · rw [if_pos hif] at hfp
    obtain ⟨-, -, hav, -⟩ := product_save_fields now
      { p with
        lowest_price := some (xs.foldl min x)
        highest_price := some (xs.foldl max x)
        average_price := some (listSum (x :: xs) / ((x :: xs).length : ℚ)) }
    rw [hfp] at hav
    exact hav
  · rw [if_neg hif] at hfp
    rw [← hfp] at hpk
    exact absurd hpk hif

/-- A state whose product has last-known-good statistics of 100 and two
available observations in distinct currencies (1 USD and 3 EUR). -/
def mismatchDB : DB :=
  { products := [{ wProduct with
      lowest_price := some 100, highest_price := some 100, average_price := some 100 }]
    prices := [mkRow 1 1 1 1 "USD" true, mkRow 2 1 2 3 "EUR" true]
    history := [] }

theorem update_price_stats_ignores_currency_witness :
    (∀ p2 ∈ (update_price_stats 0 mismatchDB 1).products, p2.pk = 1 →
      p2.average_price =
        some (listSum ((1 : ℚ) :: [3]) / (((1 : ℚ) :: [3]).length : ℚ))) ∧
    (update_price_stats 0 mismatchDB 1).history = mismatchDB.history ∧
    (update_price_stats 0 mismatchDB 1).prices = mismatchDB.prices :=
  update_price_stats_ignores_currency 0 mismatchDB 1 1 [3]
    (by simp [availablePrices, priceList, mismatchDB, mkRow])
    (mkRow 1 1 1 1 "USD" true) (mkRow 2 1 2 3 "EUR" true)
    (by simp [mismatchDB]) (by simp [mismatchDB])
    rfl rfl rfl rfl (by decide)

/-- C4 counterexample: with available observations 1 USD and 3 EUR and
last-known-good cached statistics of 100, a reconciliation pass overwrites
the cached average with the cross-currency mean 2 instead of skipping the
product and leaving the stats at 100. -/
theorem currency_mismatch_not_skipped :
    (mismatchDB.prices.map (fun r => r.currency) = ["USD", "EUR"]) ∧
    ((update_price_stats 0 mismatchDB 1).products.map (fun p => p.average_price) =
      [some 2]) ∧
    some (2 : ℚ) ≠ some 100 := by
  refine ⟨rfl, ?_, by norm_num⟩
  simp +decide [update_price_stats, availablePrices, priceList, mismatchDB, mkRow,
    Product.save, wProduct]
  norm_num [listSum]

/-- C7 (amended): no price validation happens at ingestion: an observation
with a negative price is accepted rather than rejected with a validation
error — the row is stored carrying the negative price, so the malformed
price does reach the store (and the statistics recomputation that follows
the write runs over it). -/
theorem upsert_accepts_negative_price (now : Int) (db : DB) (pid : Nat)
    (ret small : Option Nat) (f : IngestFields) (hneg : f.price < 0)
    (hfind : db.prices.find?
      (fun r => r.product == pid && r.retailer == ret && r.small_retailer == small) =
        none) :
    ∃ db2, upsert now db pid ret small f = some db2 ∧
      ∃ r ∈ db2.prices, r.product = pid ∧ r.price = f.price ∧ r.price < 0 := by
  unfold upsert
  rw [hfind]
  unfold RetailerProductPrice.save
  refine ⟨_, rfl, ?_⟩
  rw [update_price_stats_prices]
  exact ⟨_, List.mem_append_right _ (List.mem_singleton.mpr rfl), rfl, rfl, hneg⟩

theorem upsert_accepts_negative_price_witness :
    ∃ db2, upsert 0 noObsDB 1 (some 1) none (mkFields (-5) "USD") = some db2 ∧
      ∃ r ∈ db2.prices, r.product = 1 ∧ r.price = (mkFields (-5) "USD").price ∧
        r.price < 0 :=
  upsert_accepts_negative_price 0 noObsDB 1 (some 1) none (mkFields (-5) "USD")
    (by norm_num [mkFields]) rfl

/-- C7 counterexample: ingesting the malformed price -5 is not rejected: the
observation is stored with price -5 and the product's cached statistics are
recomputed to -5 from it. -/
theorem negative_price_reaches_store :
    ((-5 : ℚ) < 0) ∧
    (upsert 0 noObsDB 1 (some 1) none (mkFields (-5) "USD")).map
      (fun d => d.prices.map (fun r => r.price)) = some [-5] ∧
    (upsert 0 noObsDB 1 (some 1) none (mkFields (-5) "USD")).map
      (fun d => d.products.map (fun p => p.average_price)) = some [some (-5)] := by
  refine ⟨by norm_num, rfl, ?_⟩
  simp +decide [upsert, RetailerProductPrice.save, update_price_stats,
    availablePrices, priceList, noObsDB, mkFields, mkRow, Product.save, wProduct,
    freshPk, listSum]

/-! Further helper lemmas, for the frame and idempotence claims. -/

theorem product_save_slug (now : Int) (p : Product)
    (h : p.slug ≠ "" ∨ slugify p.name = "") :
    (Product.save now p).slug = p.slug := by
  unfold Product.save
  by_cases hs : p.slug = ""
  · rcases h with h1 | h1
    · exact absurd hs h1
    · simp [hs, h1]
  · simp [hs]

theorem priceList_map_eq (l : List RetailerProductPrice)
    (g : RetailerProductPrice → RetailerProductPrice) (pid : Nat)
    (h : ∀ s ∈ l, (g s).product = s.product ∧ (g s).price = s.price ∧
      (g s).is_available = s.is_available) :
    priceList (l.map g) pid = priceList l pid := by
  induction l with
  | nil => rfl
  | cons s l ih =>
      obtain ⟨h1, h2, h3⟩ := h s (List.mem_cons_self s l)
      have ih2 := ih (fun t ht => h t (List.mem_cons_of_mem s ht))
      unfold priceList at ih2 ⊢
      rw [List.map_cons, List.filter_cons, List.filter_cons, h1, h3]
      by_cases hc : (s.product == pid && s.is_available) = true
      · simp [hc, h2, ih2]
      · simp [hc, ih2]

theorem computedStats_of_cons (db : DB) (pid : Nat) (x : ℚ) (xs : List ℚ)
    (h : availablePrices db pid = x :: xs) :
    computedStats db pid = some (xs.foldl min x, xs.foldl max x,
      listSum (x :: xs) / ((x :: xs).length : ℚ)) := by
  unfold computedStats
  rw [h]

theorem computedStats_congr (db1 db : DB) (pid : Nat)
    (h : availablePrices db1 pid = availablePrices db pid) :
    computedStats db1 pid = computedStats db pid := by
  unfold computedStats
  rw [h]

theorem reconciled_spec (db : DB) (pid : Nat) (hrec : reconciled db pid = true)
    (lo hi av : ℚ) (h : computedStats db pid = some (lo, hi, av)) :
    ∀ p ∈ db.products, p.pk = pid →
      p.lowest_price = some lo ∧ p.highest_price = some hi ∧
        p.average_price = some av := by
  unfold reconciled at hrec
  rw [h] at hrec
  intro p hp hpk
  have h2 := List.all_eq_true.mp hrec p hp
  simp only [hpk, bne_self_eq_false, Bool.false_or, Bool.and_eq_true,
    beq_iff_eq] at h2
  exact ⟨h2.1.1, h2.1.2, h2.2⟩

/-- A reconciliation pass maps every product row with the recomputed-for key
to a row carrying the stats the pass computes; when the cache already held
those stats, the pass preserves all three cached fields row by row. -/
theorem update_price_stats_forall₂ (now : Int) (db1 : DB) (pid : Nat)
    (base : List Product) (hbase : db1.products = base)
    (hstats : ∀ lo hi av, computedStats db1 pid = some (lo, hi, av) →
      ∀ p ∈ base, p.pk = pid → p.lowest_price = some lo ∧
        p.highest_price = some hi ∧ p.average_price = some av) :
    List.Forall₂ (fun p p2 => p2.lowest_price = p.lowest_price ∧
      p2.highest_price = p.highest_price ∧ p2.average_price = p.average_price)
      base (update_price_stats now db1 pid).products := by
  rcases hl : availablePrices db1 pid with _ | ⟨x, xs⟩
  · rw [update_price_stats_of_nil now db1 pid hl, hbase]
    exact List.forall₂_same.mpr (fun p hp => ⟨rfl, rfl, rfl⟩)
  · rw [update_price_stats_of_cons now db1 pid x xs hl]
    show List.Forall₂ _ base ((db1.products).map _)
    rw [hbase]
    refine List.forall₂_map_right_iff.mpr (List.forall₂_same.mpr ?_)
    intro p hp
    by_cases hpk : p.pk = pid
    · rw [if_pos hpk]
      have hcs := computedStats_of_cons db1 pid x xs hl
      obtain ⟨h1, h2, h3⟩ := hstats _ _ _ hcs p hp hpk
      obtain ⟨hlo, hhi, hav, -⟩ := product_save_fields now
        { p with
          lowest_price := some (xs.foldl min x)
          highest_price := some (xs.foldl max x)
          average_price := some (listSum (x :: xs) / ((x :: xs).length : ℚ)) }
      exact ⟨hlo.trans h1.symm, hhi.trans h2.symm, hav.trans h3.symm⟩
    · rw [if_neg hpk]
      exact ⟨rfl, rfl, rfl⟩

/-- Saving a stored observation row back unchanged leaves the history alone,
keeps the row's `previous_price`, and preserves every product row's cached
statistics, provided the cache agreed with the observations beforehand. -/
theorem save_unchanged_core (now : Int) (db : DB) (old : RetailerProductPrice)
    (k : Nat) (hpk : old.pk = some k)
    (hkfind : db.prices.find? (fun r => r.pk == some k) = some old)
    (hkuniq : ∀ r ∈ db.prices, r.pk = some k → r = old)
    (hrec : reconciled db old.product = true) :
    ∃ db2, RetailerProductPrice.save now db old = some db2 ∧
      db2.history = db.history ∧
      (∀ r ∈ db2.prices, r.pk = some k → r.previous_price = old.previous_price) ∧
      List.Forall₂ (fun p p2 => p2.lowest_price = p.lowest_price ∧
        p2.highest_price = p.highest_price ∧ p2.average_price = p.average_price)
        db.products db2.products := by
  unfold RetailerProductPrice.save
  simp only [hpk, hkfind, ne_eq, eq_self_iff_true, not_true, if_false, ite_false,
    ite_self]
  have hap : availablePrices
      { db with prices := db.prices.map (fun r => if r.pk = some k
          then { old with pk := some k, price_updated_at := now, last_checked := now }
          else r) }
      old.product = availablePrices db old.product := by
    refine priceList_map_eq db.prices _ old.product ?_
    intro s hs
    by_cases hsk : s.pk = some k
    · rw [if_pos hsk, hkuniq s hs hsk]
      exact ⟨rfl, rfl, rfl⟩
    · rw [if_neg hsk]
      exact ⟨rfl, rfl, rfl⟩
  refine ⟨_, rfl, ?_, ?_, ?_⟩
  · rw [update_price_stats_history]
  · intro r hr hrk
    rw [update_price_stats_prices] at hr
    obtain ⟨s, hs, hgs⟩ := List.mem_map.mp hr
    by_cases hsk : s.pk = some k
    · rw [if_pos hsk] at hgs
      rw [← hgs]
    · rw [if_neg hsk] at hgs
      rw [← hgs] at hrk
      exact absurd hrk hsk
  · refine update_price_stats_forall₂ now _ old.product db.products rfl ?_
    intro lo hi av hcs p hp hpk2
    have hcs2 : computedStats db old.product = some (lo, hi, av) :=
      (computedStats_congr _ db old.product hap).symm.trans hcs
    exact reconciled_spec db old.product hrec lo hi av hcs2 p hp hpk2

/-- C5: re-ingesting an observation whose payload is identical to the stored
row for that (product, source) pair is idempotent: the history gains no
entry, the stored row's `previous_price` is unchanged, and every product
row's cached lowest/highest/average statistics are unchanged — the pass
recomputes exactly the values the cache already held (assuming the cache
agreed with the observations beforehand, which every save maintains). -/
theorem upsert_idempotent (now : Int) (db : DB) (pid : Nat)
    (ret small : Option Nat) (f : IngestFields) (old : RetailerProductPrice)
    (k : Nat)
    (hfind : db.prices.find?
      (fun r => r.product == pid && r.retailer == ret && r.small_retailer == small) =
        some old)
    (hpk : old.pk = some k)
    (hkfind : db.prices.find? (fun r => r.pk == some k) = some old)
    (hkuniq : ∀ r ∈ db.prices, r.pk = some k → r = old)
    (hf : f.price = old.price ∧ f.currency = old.currency ∧
      f.shipping_cost = old.shipping_cost ∧
      f.is_free_shipping = old.is_free_shipping ∧
      f.product_url = old.product_url ∧ f.is_available = old.is_available ∧
      f.stock_status = old.stock_status)
    (hrec : reconciled db pid = true) :
    ∃ db2, upsert now db pid ret small f = some db2 ∧
      db2.history = db.history ∧
      (∀ r ∈ db2.prices, r.pk = some k → r.previous_price = old.previous_price) ∧
      List.Forall₂ (fun p p2 => p2.lowest_price = p.lowest_price ∧
        p2.highest_price = p.highest_price ∧ p2.average_price = p.average_price)
        db.products db2.products := by
  obtain ⟨e1, e2, e3, e4, e5, e6, e7⟩ := hf
  have hprod : old.product = pid := by
    have h2 := List.find?_some hfind
    simp only [Bool.and_eq_true, beq_iff_eq] at h2
    exact h2.1.1
  have hinst : ({ old with
      price := f.price
      currency := f.currency
      shipping_cost := f.shipping_cost
      is_free_shipping := f.is_free_shipping
      product_url := f.product_url
      is_available := f.is_available
      stock_status := f.stock_status } : RetailerProductPrice) = old := by
    rw [e1, e2, e3, e4, e5, e6, e7]
  unfold upsert
  simp only [hfind]
  rw [hinst]
  exact save_unchanged_core now db old k hpk hkfind hkuniq (by rw [hprod]; exact hrec)

/-- A reconciled state: one product with cached statistics 10 and one
available observation at price 10. -/
def recDB : DB :=
  { products := [{ wProduct with
      lowest_price := some 10, highest_price := some 10, average_price := some 10 }]
    prices := [mkRow 1 1 1 10 "USD" true]
    history := [] }

theorem upsert_idempotent_witness :
    ∃ db2, upsert 9 recDB 1 (some 1) none (mkFields 10 "USD") = some db2 ∧
      db2.history = recDB.history ∧
      (∀ r ∈ db2.prices, r.pk = some 1 →
        r.previous_price = (mkRow 1 1 1 10 "USD" true).previous_price) ∧
      List.Forall₂ (fun p p2 => p2.lowest_price = p.lowest_price ∧
        p2.highest_price = p.highest_price ∧ p2.average_price = p.average_price)
        recDB.products db2.products :=
  upsert_idempotent 9 recDB 1 (some 1) none (mkFields 10 "USD")
    (mkRow 1 1 1 10 "USD" true) 1 rfl rfl rfl (by decide)
    ⟨rfl, rfl, rfl, rfl, rfl, rfl, rfl⟩
    (by simp [reconciled, computedStats, availablePrices, priceList, recDB,
      mkRow, wProduct, listSum])

/-- C10: the reconciliation recompute writes only the product's three cached
statistics fields (plus the auto-maintained save timestamp): observation and
history rows are untouched, every other product row is exactly unchanged, and
the recomputed product row keeps its key, name, slug, view count and creation
time (under the invariant every `Product.save` establishes, that an empty
slug only persists when there is nothing to generate from the name). -/
theorem update_price_stats_frame (now : Int) (db : DB) (pid : Nat)
    (hslug : ∀ p ∈ db.products, p.pk = pid → (p.slug ≠ "" ∨ slugify p.name = "")) :
    (update_price_stats now db pid).prices = db.prices ∧
    (update_price_stats now db pid).history = db.history ∧
    List.Forall₂ (fun p p2 => p2.pk = p.pk ∧ p2.name = p.name ∧
      p2.slug = p.slug ∧ p2.view_count = p.view_count ∧
      p2.created_at = p.created_at ∧ (p.pk ≠ pid → p2 = p))
      db.products (update_price_stats now db pid).products := by
  refine ⟨update_price_stats_prices now db pid,
    update_price_stats_history now db pid, ?_⟩
  rcases hl : availablePrices db pid with _ | ⟨x, xs⟩
  · rw [update_price_stats_of_nil now db pid hl]
    exact List.forall₂_same.mpr (fun p hp => ⟨rfl, rfl, rfl, rfl, rfl, fun _ => rfl⟩)
  · rw [update_price_stats_of_cons now db pid x xs hl]
    refine List.forall₂_map_right_iff.mpr (List.forall₂_same.mpr ?_)
    intro p hp
    by_cases hpk : p.pk = pid
    · rw [if_pos hpk]
      obtain ⟨-, -, -, hpk2, hname, hview, hcreated⟩ := product_save_fields now
        { p with
          lowest_price := some (xs.foldl min x)
          highest_price := some (xs.foldl max x)
          average_price := some (listSum (x :: xs) / ((x :: xs).length : ℚ)) }
      refine ⟨hpk2, hname, ?_, hview, hcreated, fun hne => absurd hpk hne⟩
      exact product_save_slug now _ (hslug p hp hpk)
    · rw [if_neg hpk]
      exact ⟨rfl, rfl, rfl, rfl, rfl, fun _ => rfl⟩

theorem update_price_stats_frame_witness :
    (update_price_stats 7 twoRowDB 1).prices = twoRowDB.prices ∧
    (update_price_stats 7 twoRowDB 1).history = twoRowDB.history ∧
    List.Forall₂ (fun p p2 => p2.pk = p.pk ∧ p2.name = p.name ∧
      p2.slug = p.slug ∧ p2.view_count = p.view_count ∧
      p2.created_at = p.created_at ∧ (p.pk ≠ 1 → p2 = p))
      twoRowDB.products (update_price_stats 7 twoRowDB 1).products :=
  update_price_stats_frame 7 twoRowDB 1 (by decide)

end PriceCompare
